import Mathlib

/-!
Verification development for the devops-agent repository.

The Go sources are shallowly embedded: pure string manipulation is
translated to executable Lean functions over `List Char` / `String`,
stateful components (connection manager, worker pool) are translated to
explicit state passing, and interactions with the outside world
(the spawned process, the AMQP channel, the RSA primitives) are
parameters ("oracles") of the embedded functions, so that each embedded
function computes exactly what the Go code computes from the oracle's
answers.
-/

namespace DevopsAgent

/-! ## Go string primitives (strings.Fields, strings.HasPrefix, strings.TrimSuffix) -/

/-- Whitespace recognizer used by `strings.Fields` (unicode.IsSpace restricted
to the ASCII range; the higher code points U+0085 and U+00A0 play no role in
the properties below). -/
def goIsSpace (c : Char) : Bool :=
  c = ' ' || c = '\t' || c = '\n' || c = '\x0b' || c = '\x0c' || c = '\r'

/-- Accumulating splitter behind `goFields`: `cur` is the current in-progress
field, kept reversed. -/
def goFieldsAux : List Char → List Char → List (List Char)
  | [], cur => if cur.isEmpty then [] else [cur.reverse]
  | c :: cs, cur =>
    if goIsSpace c then
      if cur.isEmpty then goFieldsAux cs []
      else cur.reverse :: goFieldsAux cs []
    else goFieldsAux cs (c :: cur)

/-- Go `strings.Fields`: split around runs of whitespace, dropping empty
fields. -/
def goFields (s : String) : List String :=
  (goFieldsAux s.toList []).map String.mk

/-- Helper predicate `charsStartWith s p`: the character list `p` is a prefix of `s`. -/
def charsStartWith : List Char → List Char → Bool
  | _, [] => true
  | [], _ :: _ => false
  | a :: as, b :: bs => a == b && charsStartWith as bs

/-- Go `strings.HasPrefix s pre`. -/
def goStartsWith (s pre : String) : Bool :=
  charsStartWith s.toList pre.toList

/-- Go `strings.HasSuffix s suf`. -/
def goEndsWith (s suf : String) : Bool :=
  charsStartWith s.toList.reverse suf.toList.reverse

/-- Go `strings.TrimSuffix s suf`: remove one occurrence of the suffix, if
present. -/
def goTrimSuffixOnce (s suf : String) : String :=
  if goEndsWith s suf then
    String.mk (s.toList.take (s.toList.length - suf.toList.length))
  else s

/-! ## Config (unnamed/part_001, the fields the executor reads) -/

/-- The agent `Config`, restricted to the fields the executor consults.
`CommandTimeoutSeconds` stands for `int(config.CommandTimeout.Seconds())`. -/
structure Config where
  Hostname : String
  AllowedCommands : List String
  AllowedDirectories : List String
  CommandTimeoutSeconds : Int
  deriving Repr, DecidableEq

/-! ## Authorization policy (executor.go: isCommandAllowed / isPathAllowed /
isDirectoryAllowed) -/

/-- The hard-coded dangerous-command block-list of `isCommandAllowed`. -/
def dangerousCommands : List String :=
  ["rm", "shutdown", "reboot", "halt", "poweroff", "dd", "mkfs", "fdisk"]

/-- Embedding of `isDirectoryAllowed` (executor.go lines 165-180): trim one trailing slash
from the path and from each allow-list entry, accept on exact match or on the
entry plus "/" being a prefix of the path. -/
def isDirectoryAllowed (cfg : Config) (path : String) : Bool :=
  let path := goTrimSuffixOnce path "/"
  cfg.AllowedDirectories.any fun allowedDir =>
    let allowedDir := goTrimSuffixOnce allowedDir "/"
    path == allowedDir || goStartsWith path (allowedDir ++ "/")

/-- Embedding of `isPathAllowed` (executor.go lines 136-162): every token after the first
that does not start with "-" and starts with "/" must pass
`isDirectoryAllowed`. -/
def isPathAllowed (cfg : Config) (command : String) : Bool :=
  ((goFields command).drop 1).all fun part =>
    if goStartsWith part "-" then true
    else if goStartsWith part "/" then isDirectoryAllowed cfg part
    else true

/-- Embedding of `isCommandAllowed` (executor.go lines 87-133): allow-list prefix check on
the first token, then the dangerous-command block-list, then the path check. -/
def isCommandAllowed (cfg : Config) (command : String) : Bool :=
  match goFields command with
  | [] => false
  | cmdName :: _ =>
    let allowed := cfg.AllowedCommands.any fun allowedCmd =>
      goStartsWith cmdName allowedCmd
    if !allowed then false
    else if dangerousCommands.any (fun dangerous => goStartsWith cmdName dangerous) then
      false
    else isPathAllowed cfg command

/-! ## Process execution (executor.go: runCommand) -/

/-- Outcome of the spawned process, as observed by `runCommand`'s
start / wait / timeout race.  This is the oracle for the one
non-deterministic step of `runCommand`; each constructor corresponds to
exactly one branch of the Go code:
* `startFailed`: `cmd.Start()` returned an error;
* `exitedOk`: `cmd.Wait()` returned nil (process exit status 0);
* `exitedWithStatus`: `cmd.Wait()` returned an `*exec.ExitError` carrying
  the given status, with the given captured buffers;
* `waitFailed`: `cmd.Wait()` returned some other error;
* `timedOut`: the timer fired first (the process is then killed). -/
inductive ProcOutcome where
  | startFailed (errMsg : String)
  | exitedOk (stdout stderr : String)
  | exitedWithStatus (status : Int) (stdout stderr : String)
  | waitFailed (errMsg : String) (stdout stderr : String)
  | timedOut (stdout stderr : String)
  deriving Repr, DecidableEq

/-- The `(int, string, string, error)` quadruple returned by `runCommand`. -/
structure RunResult where
  exitCode : Int
  stdout : String
  stderr : String
  err : Option String
  deriving Repr, DecidableEq

/-- The timeout actually raced against the process: the message timeout, or
`int(config.CommandTimeout.Seconds())` when the message timeout is ≤ 0
(executor.go lines 185-187). -/
def effectiveTimeout (cfg : Config) (timeout : Int) : Int :=
  if timeout ≤ 0 then cfg.CommandTimeoutSeconds else timeout

/-- The `select` block of `runCommand` (executor.go lines 198-223), mapping
the process outcome to the returned quadruple. -/
def runResultOfOutcome : ProcOutcome → RunResult
  | .startFailed e => ⟨-1, "", "", some e⟩
  | .exitedOk out errOut => ⟨0, out, errOut, none⟩
  | .exitedWithStatus status out errOut => ⟨status, out, errOut, none⟩
  | .waitFailed e out errOut => ⟨-1, out, errOut, some e⟩
  | .timedOut out errOut => ⟨-2, out, errOut ++ "\nCommand timed out", none⟩

/-- Embedding of `runCommand` (executor.go lines 183-224).  The process's behaviour is the
oracle `proc`, a function of the deadline in effect (the outcome can depend on
how long the timer runs). -/
def runCommand (cfg : Config) (command : String) (timeout : Int)
    (proc : Int → ProcOutcome) : RunResult :=
  runResultOfOutcome (proc (effectiveTimeout cfg timeout))

/-! ## Execute and sendResult (executor.go lines 48-84, 227-248) -/

/-- Embedding of `CommandMessage` (executor.go lines 14-21). -/
structure CommandMessage where
  TaskID : String
  Command : String
  Timeout : Int
  User : String
  Timestamp : Int
  Signature : String
  deriving Repr, DecidableEq

/-- Embedding of `CommandResult` (executor.go lines 24-31). -/
structure CommandResult where
  TaskID : String
  ExitCode : Int
  Stdout : String
  Stderr : String
  Hostname : String
  Timestamp : Int
  deriving Repr, DecidableEq

/-- What one call to `Execute` does: the list of publish attempts made on the
connection manager, and the returned error. -/
structure ExecTrace where
  publishes : List CommandResult
  err : Option String
  deriving Repr, DecidableEq

/-- Embedding of `sendResult` (executor.go lines 227-248): serialize the result and, when
the executor holds a connection manager, attempt exactly one publish.
`json.Marshal` of a `CommandResult` (strings and integers only) cannot fail,
so the early-return-on-marshal-error branch is dead code; `sendResult` itself
always returns nil (a failed publish is only logged). -/
def sendResult (hasConnManager : Bool) (result : CommandResult) :
    List CommandResult :=
  if hasConnManager then [result] else []

/-- Embedding of `Execute` (executor.go lines 48-84).  The JSON parse of the inbound bytes
is the oracle `parsed` (`none` = `json.Unmarshal` failed), the process is the
oracle `proc`, and `now` is the completion timestamp. -/
def Execute (cfg : Config) (hasConnManager : Bool)
    (parsed : Option CommandMessage) (proc : Int → ProcOutcome)
    (now : Int) : ExecTrace :=
  match parsed with
  | none => ⟨[], some "failed to unmarshal command message"⟩
  | some cmdMsg =>
    if !isCommandAllowed cfg cmdMsg.Command then
      ⟨[], some ("command not allowed: " ++ cmdMsg.Command)⟩
    else
      let r := runCommand cfg cmdMsg.Command cmdMsg.Timeout proc
      let result : CommandResult :=
        ⟨cmdMsg.TaskID, r.exitCode, r.stdout, r.stderr, cfg.Hostname, now⟩
      ⟨sendResult hasConnManager result, none⟩

/-! ## Message authenticator (pkg/util/signature.go, internal/signer.go) -/

/-- Values that can appear in a signing parameter map.  The message signer
only ever passes a string (hostname) and an int64 (timestamp); the `int` and
`bool` cases of `buildSortedJSON` are included for fidelity, the float and
generic-marshal fallback cases are never reached from the embedded callers. -/
inductive SigValue where
  | str (s : String)
  | int (n : Int)
  | bool (b : Bool)
  deriving Repr, DecidableEq

/-- Byte-wise string comparison, mirroring how `sort.Strings` orders keys. -/
def charsLt : List Char → List Char → Bool
  | [], [] => false
  | [], _ :: _ => true
  | _ :: _, [] => false
  | a :: as, b :: bs =>
    if a.toNat < b.toNat then true
    else if b.toNat < a.toNat then false
    else charsLt as bs

/-- Insert one key/value pair into a key-sorted list. -/
def insertByKey (p : String × SigValue) :
    List (String × SigValue) → List (String × SigValue)
  | [] => [p]
  | q :: rest =>
    if charsLt q.1.toList p.1.toList then q :: insertByKey p rest
    else p :: q :: rest

/-- Embedding of `sort.Strings` over the parameter keys (values carried along). -/
def sortByKey (params : List (String × SigValue)) : List (String × SigValue) :=
  params.foldr insertByKey []

/-- Serialization of one value (signature.go lines 152-175). -/
def jsonOfValue : SigValue → String
  | .str s => "\"" ++ s ++ "\""
  | .int n => toString n
  | .bool b => if b then "true" else "false"

def joinComma : List String → String
  | [] => ""
  | [s] => s
  | s :: rest => s ++ "," ++ joinComma rest

/-- Embedding of `buildSortedJSON` (signature.go lines 132-179): keys sorted, each entry
rendered as "key":value, wrapped in braces.  For the value cases above the
Go function cannot return an error. -/
def buildSortedJSON (params : List (String × SigValue)) : String :=
  "\x7b" ++
    joinComma ((sortByKey params).map fun p =>
      "\"" ++ p.1 ++ "\"" ++ ":" ++ jsonOfValue p.2) ++
  "\x7d"

/-- The state of an `RSASigner` (signature.go lines 33-37): the enablement
flag and whether each key was successfully loaded. -/
structure RSASigner where
  enabled : Bool
  hasPrivateKey : Bool
  hasPublicKey : Bool
  deriving Repr, DecidableEq

/-- Oracle for the two library calls of `Verify` whose outcome depends on the
actual key material: whether `base64.StdEncoding.DecodeString` succeeds on
the signature, and whether `rsa.VerifyPKCS1v15` accepts the (hashed) content
against the decoded signature. -/
structure RSAOracle where
  base64DecodeOk : String → Bool
  verifyOk : String → String → Bool

/-- Embedding of `RSASigner.Verify` (signature.go lines 94-124), returning the Go
`(bool, error)` pair as `Bool × Option String`. -/
def RSASigner.Verify (s : RSASigner) (o : RSAOracle)
    (params : List (String × SigValue)) (signature : String) :
    Bool × Option String :=
  if !s.enabled || !s.hasPublicKey then (true, none)
  else if signature == "" then (false, some "missing signature")
  else
    let signContent := buildSortedJSON params
    if !o.base64DecodeOk signature then
      (false, some "illegal base64 data")
    else if !o.verifyOk signContent signature then
      (false, some "crypto/rsa: verification error")
    else (true, none)

/-- Embedding of `RSAMessageSigner.Verify` (internal/signer.go lines 70-79): builds the
hostname/timestamp parameter map and delegates to `RSASigner.Verify`
(the map's construction order is irrelevant since `buildSortedJSON`
sorts the keys). -/
def RSAMessageSigner.Verify (s : RSASigner) (o : RSAOracle)
    (hostname : String) (signature : String) (timestamp : Int) :
    Bool × Option String :=
  RSASigner.Verify s o
    [("hostname", SigValue.str hostname), ("timestamp", SigValue.int timestamp)]
    signature

/-! ## Message bus client (ConnectionManager, second file inside src/go.mod) -/

/-- Embedding of `QueueBinding`: exchange, routing key, and the handler callback, the
latter identified by an opaque id. -/
structure QueueBinding where
  ExchangeName : String
  RoutingKey : String
  handlerId : Nat
  deriving Repr, DecidableEq

/-- Go map assignment `m[k] = v` on an association list keyed by queue name:
replace in place if the key exists, append otherwise. -/
def mapInsert (k : String) (v : QueueBinding) :
    List (String × QueueBinding) → List (String × QueueBinding)
  | [] => [(k, v)]
  | (k', v') :: rest =>
    if k' == k then (k, v) :: rest else (k', v') :: mapInsert k v rest

/-- Go map lookup `m[k]`. -/
def mapLookup (k : String) :
    List (String × QueueBinding) → Option QueueBinding
  | [] => none
  | (k', v') :: rest => if k' == k then some v' else mapLookup k rest

/-- The `ConnectionManager` state: `hasChannel` is `ch != nil`, and
`messageHandlers` is the queue-name-keyed map of bindings.  The association
list records insertion order; a Go map's iteration order is unspecified, so
no property below may depend on the list's order (membership and per-key
content are the same for every iteration order). -/
structure ConnectionManager where
  running : Bool
  reconnecting : Bool
  hasChannel : Bool
  messageHandlers : List (String × QueueBinding)
  deriving Repr, DecidableEq

/-- Embedding of `NewConnectionManager`: no channel, empty registry. -/
def NewConnectionManager : ConnectionManager :=
  ⟨false, false, false, []⟩

/-- Embedding of `DeclareExchange` (go.mod file 2, lines 165-182): with no live channel
return `amqp091.ErrClosed`; otherwise the result of the channel call
(the oracle `chanDeclare`). -/
def ConnectionManager.DeclareExchange (cm : ConnectionManager)
    (exchangeName exchangeType : String) (chanDeclare : Option String) :
    Option String :=
  if !cm.hasChannel then some "channel/connection is not open"
  else chanDeclare

/-- Embedding of `Publish` (go.mod file 2, lines 261-279): with no live channel return
`amqp091.ErrClosed`; otherwise the result of `ch.Publish` (the oracle). -/
def ConnectionManager.Publish (cm : ConnectionManager)
    (exchange routingKey : String) (msg : String)
    (chanPublish : Option String) : Option String :=
  if !cm.hasChannel then some "channel/connection is not open"
  else chanPublish

/-- Embedding of `BindQueue` (go.mod file 2, lines 185-202): always store the binding
under the queue name; with no live channel return nil ("连接建立后会自动绑定"
— it will be bound after the connection is established); otherwise return the
result of `bindQueueInternal` (the oracle `chanBind`). -/
def ConnectionManager.BindQueue (cm : ConnectionManager)
    (queueName exchangeName routingKey : String) (handlerId : Nat)
    (chanBind : Option String) : ConnectionManager × Option String :=
  let binding : QueueBinding := ⟨exchangeName, routingKey, handlerId⟩
  let cm' : ConnectionManager :=
    { cm with messageHandlers := mapInsert queueName binding cm.messageHandlers }
  if !cm'.hasChannel then (cm', none)
  else (cm', chanBind)

/-- The rebind loop of `connect` (go.mod file 2, lines 139-143): after a
successful dial and channel creation, `bindQueueInternal` is attempted once
for every entry currently in `messageHandlers`; a failed rebind is only
logged and does not remove later entries from the replay.  The replayed
entries are therefore exactly the map's entries — one per queue name,
holding the most recently stored binding for that name. -/
def ConnectionManager.rebindOnConnect (cm : ConnectionManager) :
    List (String × QueueBinding) :=
  cm.messageHandlers

/-! ## Bounded worker pool (unnamed/part_002) -/

/-- Capacity of the task channel, from `make(chan func(), 100)`. -/
def taskQueueCapacity : Nat := 100

/-- Embedding of `WorkerPool` state: tasks are opaque and identified by `Nat` ids; `queue`
is the buffered content of the task channel, front first. -/
structure WorkerPool where
  maxWorkers : Nat
  running : Bool
  queueClosed : Bool
  queue : List Nat
  deriving Repr, DecidableEq

/-- Embedding of `NewWorkerPool` (part_002 lines 17-22). -/
def NewWorkerPool (maxWorkers : Nat) : WorkerPool :=
  ⟨maxWorkers, false, false, []⟩

/-- Embedding of `Start` (part_002 lines 25-35): set running and launch the workers. -/
def WorkerPool.Start (wp : WorkerPool) : WorkerPool :=
  { wp with running := true }

/-- The number of worker goroutines `Start` launches (its for-loop bound). -/
def WorkerPool.workersLaunched (wp : WorkerPool) : Nat :=
  wp.maxWorkers

/-- Embedding of `Submit` (part_002 lines 46-52): a no-op when not running; otherwise a
channel send, which completes immediately while the buffer has room and
blocks while it is full.  `none` means the send blocks; it stays blocked
until some worker receives, so with no workers it blocks forever. -/
def WorkerPool.Submit (wp : WorkerPool) (t : Nat) : Option WorkerPool :=
  if !wp.running then some wp
  else if wp.queue.length < taskQueueCapacity then
    some { wp with queue := wp.queue ++ [t] }
  else none

/-- Embedding of `Stop` (part_002 lines 38-43) up to the `wg.Wait()`: clear running and
close the queue.  `wg.Wait()` then returns once every worker's loop has
exited; the tasks a worker still executes before exiting are given by
`workerDrain` below. -/
def WorkerPool.Stop (wp : WorkerPool) : WorkerPool :=
  { wp with running := false, queueClosed := true }

/-- Iterated `Submit`. -/
def submitMany (wp : WorkerPool) : List Nat → Option WorkerPool
  | [] => some wp
  | t :: ts => (wp.Submit t).bind fun wp' => submitMany wp' ts

/-- The worker loop `for wp.running { task, ok := <-queue; if !ok return;
task() }` (part_002 lines 55-67) of one worker, from the moment `Stop` has
closed the queue, with `buffered` the tasks then remaining in the channel.
`obs i` is the value of `wp.running` the worker reads at its i-th loop-head
check from that moment on (the guard read races the `Stop` write, so the
very first check may still observe `true`).  A receive on the closed channel
yields the next buffered task, or `ok = false` once the buffer is empty.
The result is the list of tasks this worker still executes. -/
def workerDrain (obs : Nat → Bool) : Nat → List Nat → List Nat
  | _, [] => []
  | i, t :: ts => if obs i then t :: workerDrain obs (i + 1) ts else []

/-- Schedules consistent with `Stop` having completed its `running = false`
write: every loop-head read after the first happens after the write and
therefore observes `false`. -/
def postStopObs (obs : Nat → Bool) : Prop :=
  ∀ i, 1 ≤ i → obs i = false

/-! ## Helper lemmas -/

theorem charsStartWith_nil (l : List Char) : charsStartWith l [] = true := by
  cases l <;> rfl

theorem goStartsWith_empty (s : String) : goStartsWith s "" = true := by
  unfold goStartsWith
  exact charsStartWith_nil s.toList

/-- A string starting with "/" has, after `goTrimSuffixOnce _ "/"`, either
become empty or still starts with "/". -/
theorem trimSlash_of_slash (p : String) (h : goStartsWith p "/" = true) :
    goTrimSuffixOnce p "/" = "" ∨
      goStartsWith (goTrimSuffixOnce p "/") "/" = true := by
  unfold goTrimSuffixOnce
  by_cases he : goEndsWith p "/" = true
  · simp only [he, if_true]
    obtain ⟨c, cs, hl⟩ : ∃ c cs, p.toList = c :: cs := by
      cases hpl : p.toList with
      | nil => unfold goStartsWith at h; rw [hpl] at h; simp [charsStartWith] at h
      | cons c cs => exact ⟨c, cs, rfl⟩
    have hc : c = '/' := by
      unfold goStartsWith at h
      rw [hl] at h
      simp only [charsStartWith, charsStartWith_nil, Bool.and_true] at h
      exact eq_of_beq h
    subst hc
    rw [hl]
    cases cs with
    | nil => left; rfl
    | cons d ds =>
      right
      unfold goStartsWith
      simp only [String.toList, List.length_cons, String.mk]
      simp [charsStartWith, charsStartWith_nil, List.take]
  · simp only [he, if_false, Bool.not_eq_true] at *
    rw [if_neg (by simp [he])]
    right
    exact h

/-! ## C1 -/

/-- C1: for every command line whose first whitespace-split token has one of
the configured dangerous-command prefixes as a string prefix,
`isCommandAllowed` returns false, regardless of the allow-list (the
block-list dominates the allow-list). -/
theorem c1_blocklist_dominates (cfg : Config) (command cmdName : String)
    (rest : List String) (hf : goFields command = cmdName :: rest)
    (hd : dangerousCommands.any
      (fun dangerous => goStartsWith cmdName dangerous) = true) :
    isCommandAllowed cfg command = false := by
  unfold isCommandAllowed
  rw [hf]
  by_cases ha : (cfg.AllowedCommands.any fun allowedCmd =>
      goStartsWith cmdName allowedCmd) = true
  · simp [ha, hd]
  · have ha' : (cfg.AllowedCommands.any fun allowedCmd =>
        goStartsWith cmdName allowedCmd) = false := Bool.eq_false_iff.mpr ha
    simp [ha']

/-- Witness for C1: "rm" is on the allow-list and is a prefix of the first
token, yet "rm -rf /tmp" is rejected. -/
theorem c1_witness :
    goStartsWith "rm" "rm" = true ∧
      isCommandAllowed ⟨"h", ["rm"], [], 30⟩ "rm -rf /tmp" = false :=
  ⟨by decide,
    c1_blocklist_dominates ⟨"h", ["rm"], [], 30⟩ "rm -rf /tmp" "rm"
      ["-rf", "/tmp"] (by decide) (by decide)⟩

/-! ## C2 -/

/-- C2 counterexample: with an empty directory allow-list, a command whose
first token passes the allow-list and the block-list is still rejected as
soon as it carries an absolute-path token — the path check does impose an
additional rejection when no directory allow-list is configured. -/
theorem c2_counterexample :
    (⟨"h", ["ls"], [], 30⟩ : Config).AllowedDirectories = [] ∧
      goFields "ls /tmp" = ["ls", "/tmp"] ∧
      goStartsWith "ls" "ls" = true ∧
      dangerousCommands.all (fun dangerous => !goStartsWith "ls" dangerous) = true ∧
      isCommandAllowed ⟨"h", ["ls"], [], 30⟩ "ls /tmp" = false := by
  decide

/-- C2 (amended): `isCommandAllowed` rejects unless every token after the
first that starts with "/" (and not with "-") passes `isDirectoryAllowed`;
a path passes exactly when some configured directory, after one trailing
slash is stripped from both sides, equals the path or is a strict super
directory of it; tokens inside an allowed directory do not affect the
result (the path stage is exactly the conjunction over those tokens); and
with an empty (unconfigured) directory allow-list every absolute-path
token is rejected, so the path check then rejects any command containing
one. -/
theorem c2_amended_path_check (cfg : Config) (command : String) :
    (isCommandAllowed cfg command = true → isPathAllowed cfg command = true)
    ∧ (isPathAllowed cfg command = true ↔
        ∀ part ∈ (goFields command).drop 1,
          goStartsWith part "-" = false → goStartsWith part "/" = true →
            isDirectoryAllowed cfg part = true)
    ∧ (∀ p, isDirectoryAllowed cfg p = true ↔
        ∃ d ∈ cfg.AllowedDirectories,
          goTrimSuffixOnce p "/" = goTrimSuffixOnce d "/" ∨
          goStartsWith (goTrimSuffixOnce p "/")
            (goTrimSuffixOnce d "/" ++ "/") = true)
    ∧ (cfg.AllowedDirectories = [] → ∀ p, isDirectoryAllowed cfg p = false) := by
  refine ⟨?_, ?_, ?_, ?_⟩
  · intro h
    unfold isCommandAllowed at h
    cases hf : goFields command with
    | nil => rw [hf] at h; exact absurd h (by simp)
    | cons cmdName restTokens =>
      rw [hf] at h
      by_cases ha : (cfg.AllowedCommands.any fun allowedCmd =>
          goStartsWith cmdName allowedCmd) = true
      · by_cases hd : (dangerousCommands.any
            fun dangerous => goStartsWith cmdName dangerous) = true
        · simp [ha, hd] at h
        · simp only [Bool.not_eq_true] at hd
          simp [ha, hd] at h
          exact h
      · simp only [Bool.not_eq_true] at ha
        simp [ha] at h
  · unfold isPathAllowed
    rw [List.all_eq_true]
    constructor
    · intro h part hmem hdash hslash
      have hp := h part hmem
      rw [hdash, hslash] at hp
      simpa using hp
    · intro h part hmem
      by_cases hdash : goStartsWith part "-" = true
      · simp [hdash]
      · simp only [Bool.not_eq_true] at hdash
        by_cases hslash : goStartsWith part "/" = true
        · simp [hdash, hslash, h part hmem hdash hslash]
        · simp only [Bool.not_eq_true] at hslash
          simp [hdash, hslash]
  · intro p
    unfold isDirectoryAllowed
    rw [List.any_eq_true]
    constructor
    · rintro ⟨d, hd, hcond⟩
      refine ⟨d, hd, ?_⟩
      rcases Bool.or_eq_true_iff.mp hcond with h | h
      · exact Or.inl (eq_of_beq h)
      · exact Or.inr h
    · rintro ⟨d, hd, hcond⟩
      refine ⟨d, hd, ?_⟩
      rcases hcond with h | h
      · exact Bool.or_eq_true_iff.mpr (Or.inl (beq_iff_eq.mpr h))
      · exact Bool.or_eq_true_iff.mpr (Or.inr h)
  · intro hnil p
    unfold isDirectoryAllowed
    rw [hnil]
    rfl

/-- Witness for the amended C2: applies the empty-allow-list conjunct at a
concrete configuration and path. -/
theorem c2_amended_witness :
    isDirectoryAllowed ⟨"h", ["ls"], [], 30⟩ "/tmp" = false :=
  (c2_amended_path_check ⟨"h", ["ls"], [], 30⟩ "ls /tmp").2.2.2 rfl "/tmp"

/-! ## C10 -/

/-- C10: an empty string in the command allow-list makes the allow-list stage
accept every command line with a nonempty token list (acceptance then reduces
to the block-list and the path check), and an empty string in the directory
allow-list makes `isDirectoryAllowed` accept every absolute path. -/
theorem c10_empty_string_entries (cfg : Config) (command cmdName : String)
    (rest : List String) (p : String)
    (hf : goFields command = cmdName :: rest) :
    ("" ∈ cfg.AllowedCommands →
      isCommandAllowed cfg command =
        (!dangerousCommands.any (fun dangerous => goStartsWith cmdName dangerous)
          && isPathAllowed cfg command))
    ∧ ("" ∈ cfg.AllowedDirectories → goStartsWith p "/" = true →
        isDirectoryAllowed cfg p = true) := by
  constructor
  · intro hmem
    have ha : (cfg.AllowedCommands.any fun allowedCmd =>
        goStartsWith cmdName allowedCmd) = true :=
      List.any_eq_true.mpr ⟨"", hmem, goStartsWith_empty cmdName⟩
    unfold isCommandAllowed
    rw [hf]
    by_cases hd : (dangerousCommands.any
        fun dangerous => goStartsWith cmdName dangerous) = true
    · simp [ha, hd]
    · simp only [Bool.not_eq_true] at hd
      simp [ha, hd]
  · intro hmem hslash
    unfold isDirectoryAllowed
    refine List.any_eq_true.mpr ⟨"", hmem, ?_⟩
    have htrim : goTrimSuffixOnce "" "/" = "" := by decide
    rw [htrim]
    rcases trimSlash_of_slash p hslash with h | h
    · rw [h]; decide
    · refine Bool.or_eq_true_iff.mpr (Or.inr ?_)
      have : ("" : String) ++ "/" = "/" := by decide
      rw [this]
      exact h

/-- Witness for C10 at a concrete configuration holding empty-string
allow-list entries. -/
theorem c10_witness :
    isCommandAllowed ⟨"h", [""], [""], 30⟩ "foo /etc" =
      (!dangerousCommands.any (fun dangerous => goStartsWith "foo" dangerous)
        && isPathAllowed ⟨"h", [""], [""], 30⟩ "foo /etc")
    ∧ isDirectoryAllowed ⟨"h", [""], [""], 30⟩ "/etc" = true :=
  ⟨(c10_empty_string_entries ⟨"h", [""], [""], 30⟩ "foo /etc" "foo" ["/etc"]
      "/etc" (by decide)).1 (by decide),
    (c10_empty_string_entries ⟨"h", [""], [""], 30⟩ "foo /etc" "foo" ["/etc"]
      "/etc" (by decide)).2 (by decide) (by decide)⟩

/-! ## C3 -/

/-- C3: `Verify` returns true with no error for every input (any hostname,
timestamp and signature, the empty one included) whenever signing is disabled
or no public key is loaded; otherwise an empty signature makes `Verify`
return false together with a non-nil error — never a silent false and never a
silent success. -/
theorem c3_verify_bypass_and_empty_signature (s : RSASigner) (o : RSAOracle)
    (hostname signature : String) (timestamp : Int) :
    ((s.enabled = false ∨ s.hasPublicKey = false) →
      RSAMessageSigner.Verify s o hostname signature timestamp = (true, none))
    ∧ (s.enabled = true → s.hasPublicKey = true →
        RSAMessageSigner.Verify s o hostname "" timestamp =
          (false, some "missing signature")) := by
  constructor
  · intro h
    unfold RSAMessageSigner.Verify RSASigner.Verify
    rcases h with h | h <;> simp [h]
  · intro he hp
    unfold RSAMessageSigner.Verify RSASigner.Verify
    simp [he, hp]

/-- Witness for C3: a disabled signer accepts a garbage signature silently;
an enabled signer with a public key hard-fails on the empty signature. -/
theorem c3_witness :
    RSAMessageSigner.Verify ⟨false, true, true⟩
      ⟨fun _ => true, fun _ _ => true⟩ "host-a" "not-base64!" 42 = (true, none)
    ∧ RSAMessageSigner.Verify ⟨true, true, true⟩
      ⟨fun _ => true, fun _ _ => true⟩ "host-a" "" 42 =
        (false, some "missing signature") :=
  ⟨(c3_verify_bypass_and_empty_signature ⟨false, true, true⟩
      ⟨fun _ => true, fun _ _ => true⟩ "host-a" "not-base64!" 42).1
      (Or.inl rfl),
    (c3_verify_bypass_and_empty_signature ⟨true, true, true⟩
      ⟨fun _ => true, fun _ _ => true⟩ "host-a" "" 42).2 rfl rfl⟩

/-! ## C4 -/

/-- C4: `runCommand`'s outcome mapping — a message timeout ≤ 0 is replaced by
the configured default; a failed start yields exit code -1, empty output and
a propagated error; an `ExitError` yields the process's own status with no
function-level error; an elapsed timeout yields exit code -2, the captured
stderr with "\nCommand timed out" appended, and no error. -/
theorem c4_runCommand_mapping (cfg : Config) (command : String)
    (timeout : Int) (proc : Int → ProcOutcome) (emsg out errOut : String)
    (status : Int) :
    (timeout ≤ 0 →
      runCommand cfg command timeout proc =
        runResultOfOutcome (proc cfg.CommandTimeoutSeconds))
    ∧ (proc (effectiveTimeout cfg timeout) = .startFailed emsg →
        runCommand cfg command timeout proc = ⟨-1, "", "", some emsg⟩)
    ∧ (proc (effectiveTimeout cfg timeout) = .exitedWithStatus status out errOut →
        runCommand cfg command timeout proc = ⟨status, out, errOut, none⟩)
    ∧ (proc (effectiveTimeout cfg timeout) = .timedOut out errOut →
        runCommand cfg command timeout proc =
          ⟨-2, out, errOut ++ "\nCommand timed out", none⟩) := by
  refine ⟨?_, ?_, ?_, ?_⟩
  · intro h
    unfold runCommand effectiveTimeout
    rw [if_pos h]
  · intro h; unfold runCommand; rw [h]; rfl
  · intro h; unfold runCommand; rw [h]; rfl
  · intro h; unfold runCommand; rw [h]; rfl

/-- Witness for C4 at concrete inputs: a timed-out process under a ≤ 0
message timeout (so the configured 30s default was in effect), and a process
that failed to start. -/
theorem c4_witness :
    runCommand ⟨"h", [], [], 30⟩ "sleep 300" 0 (fun _ => .timedOut "" "e") =
      ⟨-2, "", "e\nCommand timed out", none⟩
    ∧ runCommand ⟨"h", [], [], 30⟩ "x" (-1)
        (fun _ => .startFailed "fork failed") = ⟨-1, "", "", some "fork failed"⟩ :=
  ⟨(c4_runCommand_mapping ⟨"h", [], [], 30⟩ "sleep 300" 0
      (fun _ => .timedOut "" "e") "" "" "e" 0).2.2.2 rfl,
    (c4_runCommand_mapping ⟨"h", [], [], 30⟩ "x" (-1)
      (fun _ => .startFailed "fork failed") "fork failed" "" "" 0).2.1 rfl⟩

/-! ## C5 -/

/-- C5: `Execute` publishes at most one `CommandResult` per inbound payload;
a payload that fails JSON parsing or is rejected by `isCommandAllowed`
produces no publish at all; every authorized payload (the executor holding
its connection manager, as it does in the agent) produces exactly one publish
attempt whose TaskID is the parsed message's TaskID. -/
theorem c5_execute_at_most_one_result (cfg : Config) (hasConnManager : Bool)
    (parsed : Option CommandMessage) (proc : Int → ProcOutcome) (now : Int)
    (m : CommandMessage) :
    ((Execute cfg hasConnManager parsed proc now).publishes.length ≤ 1)
    ∧ (parsed = none →
        (Execute cfg hasConnManager parsed proc now).publishes = [])
    ∧ (parsed = some m → isCommandAllowed cfg m.Command = false →
        (Execute cfg hasConnManager parsed proc now).publishes = [])
    ∧ (parsed = some m → isCommandAllowed cfg m.Command = true →
        hasConnManager = true →
        (Execute cfg hasConnManager parsed proc now).publishes.map
          CommandResult.TaskID = [m.TaskID]) := by
  refine ⟨?_, ?_, ?_, ?_⟩
  · cases parsed with
    | none => simp [Execute]
    | some m' =>
      by_cases ha : isCommandAllowed cfg m'.Command = true
      · cases hasConnManager <;> simp [Execute, sendResult, ha]
      · have ha' : isCommandAllowed cfg m'.Command = false :=
          Bool.eq_false_iff.mpr ha
        simp [Execute, ha']
  · intro h; rw [h]; rfl
  · intro h ha; rw [h]; simp [Execute, ha]
  · intro h ha hc
    rw [h, hc]
    simp [Execute, sendResult, ha]

/-- Witness for C5: an authorized "ls" message with task id "t1" produces
exactly the publish list carrying "t1". -/
theorem c5_witness :
    (Execute ⟨"h", ["ls"], ["/tmp"], 30⟩ true
        (some ⟨"t1", "ls", 5, "u", 0, ""⟩)
        (fun _ => .exitedOk "out" "") 99).publishes.map
      CommandResult.TaskID = ["t1"] :=
  (c5_execute_at_most_one_result ⟨"h", ["ls"], ["/tmp"], 30⟩ true
    (some ⟨"t1", "ls", 5, "u", 0, ""⟩) (fun _ => .exitedOk "out" "") 99
    ⟨"t1", "ls", 5, "u", 0, ""⟩).2.2.2 rfl (by decide) rfl

/-! ## Map lemmas for the binding registry -/

theorem mapLookup_mapInsert (k : String) (v : QueueBinding)
    (m : List (String × QueueBinding)) :
    mapLookup k (mapInsert k v m) = some v := by
  induction m with
  | nil => simp [mapInsert, mapLookup]
  | cons p rest ih =>
    obtain ⟨k', v'⟩ := p
    by_cases hk : (k' == k) = true
    · simp [mapInsert, hk, mapLookup]
    · have hk' : (k' == k) = false := Bool.eq_false_iff.mpr hk
      simp [mapInsert, hk', mapLookup, ih]

theorem mapLookup_mapInsert_ne (k q : String) (v : QueueBinding)
    (m : List (String × QueueBinding)) (hne : q ≠ k) :
    mapLookup q (mapInsert k v m) = mapLookup q m := by
  have hqk : (k == q) = false :=
    beq_eq_false_iff_ne.mpr (fun h => hne h.symm)
  induction m with
  | nil => simp [mapInsert, mapLookup, hqk]
  | cons p rest ih =>
    obtain ⟨k', v'⟩ := p
    by_cases hk : (k' == k) = true
    · have hkk : k' = k := eq_of_beq hk
      subst hkk
      simp [mapInsert, mapLookup, hqk]
    · have hk' : (k' == k) = false := Bool.eq_false_iff.mpr hk
      by_cases hq : (k' == q) = true
      · simp [mapInsert, hk', mapLookup, hq]
      · have hq' : (k' == q) = false := Bool.eq_false_iff.mpr hq
        simp [mapInsert, hk', mapLookup, hq', ih]

/-! ## C6 -/

/-- C6 counterexample: `BindQueue` invoked while the bus client has no live
channel returns nil (no error) — it only records the binding for later —
even though the eventual channel-level bind (the oracle, set here to a
failure) would fail.  The claim that all three of declare, bind and publish
error in the disconnected state is therefore false for `BindQueue`. -/
theorem c6_counterexample :
    NewConnectionManager.hasChannel = false
    ∧ (NewConnectionManager.BindQueue "q" "ex" "rk" 1 (some "bind failed")).2 =
        none := by
  decide

/-- C6 (amended): while the bus client has no live channel, `DeclareExchange`
and `Publish` return a non-nil error (`amqp091.ErrClosed`) without blocking,
while `BindQueue` records the binding under its queue name and returns nil,
deferring the actual declaration and bind to the next successful connect. -/
theorem c6_amended_disconnected_ops (cm : ConnectionManager)
    (h : cm.hasChannel = false) (exchangeName exchangeType : String)
    (queueName routingKey msg : String) (handlerId : Nat)
    (chanDeclare chanPublish chanBind : Option String) :
    cm.DeclareExchange exchangeName exchangeType chanDeclare =
      some "channel/connection is not open"
    ∧ cm.Publish exchangeName routingKey msg chanPublish =
      some "channel/connection is not open"
    ∧ (cm.BindQueue queueName exchangeName routingKey handlerId chanBind).2 = none
    ∧ mapLookup queueName
        (cm.BindQueue queueName exchangeName routingKey handlerId
          chanBind).1.messageHandlers =
        some ⟨exchangeName, routingKey, handlerId⟩ := by
  refine ⟨?_, ?_, ?_, ?_⟩
  · unfold ConnectionManager.DeclareExchange
    simp [h]
  · unfold ConnectionManager.Publish
    simp [h]
  · unfold ConnectionManager.BindQueue
    simp [h]
  · unfold ConnectionManager.BindQueue
    simp [h, mapLookup_mapInsert]

/-- Witness for the amended C6 on the freshly constructed (disconnected)
manager. -/
theorem c6_amended_witness :
    NewConnectionManager.DeclareExchange "sys_cmd_exchange" "topic" none =
      some "channel/connection is not open"
    ∧ NewConnectionManager.Publish "sys_cmd_exchange" "cmd.all" "m" none =
      some "channel/connection is not open"
    ∧ (NewConnectionManager.BindQueue "q" "sys_cmd_exchange" "cmd.all" 1 none).2 =
      none
    ∧ mapLookup "q"
        (NewConnectionManager.BindQueue "q" "sys_cmd_exchange" "cmd.all" 1
          none).1.messageHandlers =
        some ⟨"sys_cmd_exchange", "cmd.all", 1⟩ :=
  c6_amended_disconnected_ops NewConnectionManager rfl "sys_cmd_exchange"
    "topic" "q" "cmd.all" "m" 1 none none none

/-! ## C7 -/

/-- C7 counterexample: two bindings registered through `BindQueue` under the
same queue name; the registry is a map keyed by queue name, so the second
registration overwrites the first, and the reconnect replay re-binds only
the later one — the earlier binding (handler 1, routing key "cmd.all") is
omitted, refuting "all bindings registered before the reconnect, including
several bindings registered under the same queue name, are replayed". -/
theorem c7_counterexample :
    (((NewConnectionManager.BindQueue "q" "sys_cmd_exchange" "cmd.all" 1
          none).1.BindQueue "q" "sys_cmd_exchange" "cmd.node.h" 2
        none).1).rebindOnConnect =
      [("q", ⟨"sys_cmd_exchange", "cmd.node.h", 2⟩)] := by
  decide

/-- C7 (amended): after every successful (re)connect the replay attempts
exactly the entries of the queue-name-keyed registry — for each queue name
the most recently registered binding, each exactly once (a rebind failure is
logged and does not abort the rest); bindings overwritten by a later
registration under the same queue name are not replayed, and the replay
order is the Go map's unspecified iteration order, not registration order. -/
theorem c7_amended_replay (cm : ConnectionManager)
    (queueName exchangeName routingKey : String) (handlerId : Nat)
    (chanBind : Option String) (q : String) :
    ((cm.BindQueue queueName exchangeName routingKey handlerId
        chanBind).1.rebindOnConnect =
      mapInsert queueName ⟨exchangeName, routingKey, handlerId⟩
        cm.messageHandlers)
    ∧ (mapLookup queueName
        ((cm.BindQueue queueName exchangeName routingKey handlerId
          chanBind).1.rebindOnConnect) =
        some ⟨exchangeName, routingKey, handlerId⟩)
    ∧ (q ≠ queueName →
        mapLookup q
          ((cm.BindQueue queueName exchangeName routingKey handlerId
            chanBind).1.rebindOnConnect) =
          mapLookup q cm.messageHandlers) := by
  have hfst : (cm.BindQueue queueName exchangeName routingKey handlerId
      chanBind).1.rebindOnConnect =
      mapInsert queueName ⟨exchangeName, routingKey, handlerId⟩
        cm.messageHandlers := by
    unfold ConnectionManager.BindQueue ConnectionManager.rebindOnConnect
    by_cases hc : cm.hasChannel = true <;> simp [hc]
  refine ⟨hfst, ?_, ?_⟩
  · rw [hfst]
    exact mapLookup_mapInsert queueName _ cm.messageHandlers
  · intro hne
    rw [hfst]
    exact mapLookup_mapInsert_ne queueName q _ cm.messageHandlers hne

/-- Witness for the amended C7 at a concrete re-registration. -/
theorem c7_amended_witness :
    ((NewConnectionManager.BindQueue "q" "ex" "rk" 3 none).1.rebindOnConnect =
      [("q", ⟨"ex", "rk", 3⟩)])
    ∧ mapLookup "q"
        ((NewConnectionManager.BindQueue "q" "ex" "rk" 3
          none).1.rebindOnConnect) = some ⟨"ex", "rk", 3⟩
    ∧ mapLookup "other"
        ((NewConnectionManager.BindQueue "q" "ex" "rk" 3
          none).1.rebindOnConnect) =
        mapLookup "other" NewConnectionManager.messageHandlers :=
  ⟨(c7_amended_replay NewConnectionManager "q" "ex" "rk" 3 none "other").1,
    (c7_amended_replay NewConnectionManager "q" "ex" "rk" 3 none "other").2.1,
    (c7_amended_replay NewConnectionManager "q" "ex" "rk" 3 none "other").2.2
      (by decide)⟩

/-! ## C8 -/

/-- C8 counterexample: tasks 1 and 2 are accepted by `Submit` while the pool
(one worker) is running and are still buffered when `Stop` is called; under
the canonical post-Stop schedule — every loop-head read of `running` happens
after `Stop`'s write — the worker's `for wp.running` guard is false at once,
so the worker exits executing neither task, `wg.Wait` returns, and `Stop`
returns with both submitted tasks unexecuted. -/
theorem c8_counterexample :
    ((((NewWorkerPool 1).Start.Submit 1).bind fun wp => wp.Submit 2).map
        WorkerPool.Stop) = some ⟨1, false, true, [1, 2]⟩
    ∧ workerDrain (fun _ => false) 0 [1, 2] = [] := by
  decide

/-- C8 (amended): `Stop` returns only after every worker's loop has exited,
which completes the task each worker is currently running — but tasks still
buffered in the queue are not drained: under every schedule consistent with
`Stop`'s `running = false` write, a worker executes at most the single
buffered task whose receive was already pending and abandons the rest. -/
theorem c8_amended_no_drain (obs : Nat → Bool) (h : postStopObs obs)
    (buffered : List Nat) :
    workerDrain obs 0 buffered = [] ∨
      workerDrain obs 0 buffered = buffered.take 1 := by
  cases buffered with
  | nil => exact Or.inl rfl
  | cons t ts =>
    by_cases h0 : obs 0 = true
    · refine Or.inr ?_
      unfold workerDrain
      rw [if_pos h0]
      cases ts with
      | nil => rfl
      | cons u us =>
        unfold workerDrain
        rw [if_neg (by simp [h 1 (by omega)])]
        rfl
    · refine Or.inl ?_
      unfold workerDrain
      rw [if_neg h0]

/-- Witness for the amended C8: the canonical all-false schedule applied to
two buffered tasks. -/
theorem c8_amended_witness :
    workerDrain (fun _ => false) 0 [1, 2] = [] ∨
      workerDrain (fun _ => false) 0 [1, 2] = [1, 2].take 1 :=
  c8_amended_no_drain (fun _ => false) (fun _ _ => rfl) [1, 2]

/-! ## C9 -/

set_option maxRecDepth 20000 in
/-- C9 counterexample: with worker count 0, a submitted task is queued in the
100-capacity buffer, not discarded — and once 100 tasks have been accepted,
the 101st `Submit` blocks (its channel send can never complete: no worker
exists to receive).  This refutes both "accepts every submission without
blocking" and "silently discarded (not queued)". -/
theorem c9_counterexample :
    ((NewWorkerPool 0).Start.Submit 7) = some ⟨0, true, false, [7]⟩
    ∧ (submitMany (NewWorkerPool 0).Start (List.range 100)).bind
        (fun wp => wp.Submit 100) = none := by
  decide

theorem submitMany_fills_queue (n : Nat) (ts : List Nat) : ∀ q : List Nat,
    q.length + ts.length ≤ taskQueueCapacity →
    submitMany ⟨n, true, false, q⟩ ts = some ⟨n, true, false, q ++ ts⟩ := by
  have hcap : taskQueueCapacity = 100 := rfl
  induction ts with
  | nil => intro q _; simp [submitMany]
  | cons t ts ih =>
    intro q h
    have hlt : q.length < taskQueueCapacity := by
      rw [hcap] at h ⊢
      simp only [List.length_cons] at h
      omega
    have hsub : WorkerPool.Submit ⟨n, true, false, q⟩ t =
        some ⟨n, true, false, q ++ [t]⟩ := by
      simp [WorkerPool.Submit, hlt]
    show (WorkerPool.Submit ⟨n, true, false, q⟩ t).bind
        (fun wp' => submitMany wp' ts) = _
    rw [hsub]
    show submitMany ⟨n, true, false, q ++ [t]⟩ ts = _
    have hlen : (q ++ [t]).length + ts.length ≤ taskQueueCapacity := by
      rw [hcap] at h ⊢
      simp only [List.length_append, List.length_cons, List.length_nil] at h ⊢
      omega
    rw [ih (q ++ [t]) hlen, List.append_assoc]
    rfl

/-- C9 (amended): with worker count 0, `Start` launches no workers; each of
the first 100 submissions is accepted without error or blocking and its task
is appended to the buffer — never executed, since no worker exists to drain
the queue — and once the buffer holds 100 tasks any further `Submit` blocks
forever rather than being accepted or discarded. -/
theorem c9_amended_zero_workers (ts : List Nat)
    (h : ts.length ≤ taskQueueCapacity) :
    (NewWorkerPool 0).Start.workersLaunched = 0
    ∧ submitMany (NewWorkerPool 0).Start ts = some ⟨0, true, false, ts⟩
    ∧ (ts.length = taskQueueCapacity →
        ∀ t, WorkerPool.Submit ⟨0, true, false, ts⟩ t = none) := by
  refine ⟨rfl, ?_, ?_⟩
  · have := submitMany_fills_queue 0 ts [] (by simpa using h)
    simpa [NewWorkerPool, WorkerPool.Start] using this
  · intro hfull t
    unfold WorkerPool.Submit
    rw [if_neg (by simp)]
    rw [if_neg (by simp [hfull])]

/-- Witness for the amended C9: the buffer filled with 100 tasks, after which
a further submission blocks. -/
theorem c9_amended_witness :
    (NewWorkerPool 0).Start.workersLaunched = 0
    ∧ submitMany (NewWorkerPool 0).Start (List.range 100) =
        some ⟨0, true, false, List.range 100⟩
    ∧ WorkerPool.Submit ⟨0, true, false, List.range 100⟩ 100 = none :=
  ⟨(c9_amended_zero_workers (List.range 100) (by decide)).1,
    (c9_amended_zero_workers (List.range 100) (by decide)).2.1,
    (c9_amended_zero_workers (List.range 100) (by decide)).2.2 (by decide) 100⟩

end DevopsAgent
